import Mathlib

set_option maxRecDepth 8000
set_option autoImplicit false

/- Shallow embedding of `src/variant.hpp` (mapbox::util::variant).  The C++
   template machinery is generic over a pack of alternative types; here the
   pack is a `List σ` of type names together with a `TypeUniverse` giving each
   name its carrier type, its own equality / ordering / copy semantics, and
   the behaviour of `detail::unwrapper` on it.  Exceptions become `Except`
   values, raw storage becomes an `Option` of a tagged value. -/

/-- Errors raised at runtime by the variant code.  `typeMismatch` is the
`std::runtime_error("in get()")` of `variant::get`; `unaryDispatchFail` is
`runtime_error("unary dispatch: FAIL")` of `detail::dispatcher`;
`binaryDispatchFail` is `runtime_error("binary dispatch: FAIL")` of the three
binary dispatchers; `payloadCopyThrow` stands for an exception escaping an
alternative's own copy constructor; `undefined` marks a read of raw storage at
a type other than the live one, which is undefined behaviour in the C++ and is
unreachable from well-formed states. -/
inductive VErr where
  | typeMismatch
  | unaryDispatchFail
  | binaryDispatchFail
  | payloadCopyThrow
  | undefined
deriving DecidableEq

/-- `detail::invalid_value = std::size_t(-1)`, i.e. `2^64 - 1` on the 64-bit
model used throughout. -/
def invalid_value : Nat := 2 ^ 64 - 1

variable {σ : Type} [DecidableEq σ]

/-- `detail::type_traits<T, Types...>::id`: the discriminant id of type name
`t` in the declared list, computed exactly as in the source — if `t` is the
head, the id is the number of remaining types, otherwise recurse; an empty
list yields `invalid_value`. -/
def type_traits_id (t : σ) : List σ → Nat
  | [] => invalid_value
  | first :: rest => if t = first then rest.length else type_traits_id t rest

/-- `detail::is_valid_type<T, Types...>::value`: whether `t` occurs in the
declared list, computed exactly as in the source. -/
def is_valid_type (t : σ) : List σ → Bool
  | [] => false
  | first :: rest => t = first || is_valid_type t rest

/-- Semantic universe interpreting C++ type names.  `interp` is the carrier of
each name; `strip` and `unwrap` describe `detail::unwrapper`: for a plain type
`strip t = t` and `unwrap` is the identity, while for a name standing for
`recursive_wrapper<P>` we have `strip t = ` (the name of `P`) and `unwrap`
calls `.get()`.  `beq`/`blt` are each type's own `operator==`/`operator<`, and
`copy` its copy constructor, which may throw. -/
structure TypeUniverse (σ : Type) where
  interp : σ → Type
  strip : σ → σ
  unwrap : (t : σ) → interp t → interp (strip t)
  beq : (t : σ) → interp t → interp t → Bool
  blt : (t : σ) → interp t → interp t → Bool
  copy : (t : σ) → interp t → Except VErr (interp t)

/-- `mapbox::util::variant<Types...>`: a discriminant (`type_index`) together
with the raw storage, which holds either nothing or one live value tagged with
the name of its type. -/
structure Variant (U : TypeUniverse σ) (Types : List σ) where
  type_index : Nat
  data : Option (Σ t : σ, U.interp t)

/-- Default constructor `variant()`: `type_index = detail::invalid_value`,
storage uninitialized. -/
def mkEmpty (U : TypeUniverse σ) (Types : List σ) : Variant U Types :=
  ⟨invalid_value, none⟩

/-- Value constructor `variant(T val)` (copy and move overloads coincide in a
value model): `type_index = type_traits<T, Types...>::id`, storage holds the
value.  The `enable_if<is_valid_type...>` guard is expressed as a hypothesis
`t ∈ Types` in the theorems that use this constructor. -/
def variant_of (U : TypeUniverse σ) (Types : List σ) (t : σ) (x : U.interp t) :
    Variant U Types :=
  ⟨type_traits_id t Types, some ⟨t, x⟩⟩

/-- `variant::is<T>()`: `type_index == type_traits<T, Types...>::id`. -/
def Variant.is {U : TypeUniverse σ} {Types : List σ} (t : σ)
    (v : Variant U Types) : Bool :=
  decide (v.type_index = type_traits_id t Types)

/-- `variant::valid()`: `type_index != detail::invalid_value`. -/
def Variant.valid {U : TypeUniverse σ} {Types : List σ}
    (v : Variant U Types) : Bool :=
  decide (v.type_index ≠ invalid_value)

/-- `variant::get<T>()`: if `type_index == type_traits<T, Types...>::id`,
return the storage reinterpreted at `T`; otherwise throw
`runtime_error("in get()")`.  Reinterpreting storage whose live type is not
`T` (or which is uninitialized) is undefined behaviour in C++ and is
represented by `VErr.undefined`; it is unreachable from well-formed states. -/
def Variant.get {U : TypeUniverse σ} {Types : List σ} (t : σ)
    (v : Variant U Types) : Except VErr (U.interp t) :=
  if v.type_index = type_traits_id t Types then
    match v.data with
    | some ⟨t', x⟩ => if h : t' = t then .ok (h ▸ x) else .error .undefined
    | none => .error .undefined
  else .error .typeMismatch

/-- Invariants 1–2 of the data model: either the variant is empty
(`type_index = invalid_value`, no live object) or the storage holds exactly
one live value of a declared alternative and the discriminant is that
alternative's id.  Every reachable state of the C++ object satisfies this. -/
def WF {U : TypeUniverse σ} {Types : List σ} (v : Variant U Types) : Prop :=
  (v.type_index = invalid_value ∧ v.data = none) ∨
  (∃ t x, t ∈ Types ∧ v.data = some ⟨t, x⟩ ∧
    v.type_index = type_traits_id t Types)

/-- A type name that is not a `recursive_wrapper`: `detail::unwrapper`
(primary template) is the identity on it. -/
def PlainTy (U : TypeUniverse σ) (t : σ) : Prop :=
  ∃ _ : U.strip t = t, ∀ x : U.interp t, HEq (U.unwrap t x) x

/-- `detail::dispatcher<F, V, Types...>::apply`: scan the remaining list; if
the discriminant equals the count of types after the head, fetch the value
with `get`, pass it through the unwrapper and call the visitor; otherwise
recurse; an exhausted list throws `runtime_error("unary dispatch: FAIL")`. -/
def dispatcher {U : TypeUniverse σ} {Types : List σ} {R : Type}
    (f : (t : σ) → U.interp t → Except VErr R) (v : Variant U Types) :
    List σ → Except VErr R
  | [] => .error .unaryDispatchFail
  | T :: rest =>
    if v.type_index = rest.length then
      (v.get T).bind fun x => f (U.strip T) (U.unwrap T x)
    else dispatcher f v rest

/-- `variant::visit(v, f)`: run the unary dispatcher over the full declared
list. -/
def visit {U : TypeUniverse σ} {Types : List σ} {R : Type}
    (v : Variant U Types) (f : (t : σ) → U.interp t → Except VErr R) :
    Except VErr R :=
  dispatcher f v Types

/-- `detail::binary_dispatcher_rhs<F, V, T0, T1, Types...>::apply`: the left
side's type `T0` is fixed; scan for the right side's type; on a match call the
visitor with both values unwrapped; an exhausted list throws
`runtime_error("binary dispatch: FAIL")`. -/
def binary_dispatcher_rhs {U : TypeUniverse σ} {Types : List σ} {R : Type}
    (f : (s t : σ) → U.interp s → U.interp t → Except VErr R)
    (lhs rhs : Variant U Types) (T0 : σ) : List σ → Except VErr R
  | [] => .error .binaryDispatchFail
  | T1 :: rest =>
    if rhs.type_index = rest.length then
      (lhs.get T0).bind fun x => (rhs.get T1).bind fun y =>
        f (U.strip T0) (U.strip T1) (U.unwrap T0 x) (U.unwrap T1 y)
    else binary_dispatcher_rhs f lhs rhs T0 rest

/-- `detail::binary_dispatcher_lhs<F, V, T0, T1, Types...>::apply`: the right
side's type `T0` is fixed; scan for the left side's type; on a match call the
visitor with the left value first — note: without unwrapping, unlike the rhs
dispatcher; an exhausted list throws. -/
def binary_dispatcher_lhs {U : TypeUniverse σ} {Types : List σ} {R : Type}
    (f : (s t : σ) → U.interp s → U.interp t → Except VErr R)
    (lhs rhs : Variant U Types) (T0 : σ) : List σ → Except VErr R
  | [] => .error .binaryDispatchFail
  | T1 :: rest =>
    if lhs.type_index = rest.length then
      (lhs.get T1).bind fun x => (rhs.get T0).bind fun y => f T1 T0 x y
    else binary_dispatcher_lhs f lhs rhs T0 rest

/-- `detail::binary_dispatcher<F, V, Types...>::apply`: scan for the first of
the two discriminants; same discriminants call the visitor directly (without
unwrapping); otherwise delegate to the rhs/lhs second-pass dispatchers; an
exhausted list throws. -/
def binary_dispatcher {U : TypeUniverse σ} {Types : List σ} {R : Type}
    (f : (s t : σ) → U.interp s → U.interp t → Except VErr R)
    (v0 v1 : Variant U Types) : List σ → Except VErr R
  | [] => .error .binaryDispatchFail
  | T :: rest =>
    if v0.type_index = rest.length then
      if v0.type_index = v1.type_index then
        (v0.get T).bind fun x => (v1.get T).bind fun y => f T T x y
      else binary_dispatcher_rhs f v0 v1 T rest
    else if v1.type_index = rest.length then
      binary_dispatcher_lhs f v0 v1 T rest
    else binary_dispatcher f v0 v1 rest

/-- `variant::binary_visit(v0, v1, f)`: run the binary dispatcher over the
full declared list. -/
def binary_visit {U : TypeUniverse σ} {Types : List σ} {R : Type}
    (v0 v1 : Variant U Types)
    (f : (s t : σ) → U.interp s → U.interp t → Except VErr R) :
    Except VErr R :=
  binary_dispatcher f v0 v1 Types

/-- `detail::comparer<Variant, equal_comp>` as a unary visitor: it receives
the right side's (already unwrapped) content, fetches the left side's value at
that same type via `get`, and compares with that type's own equality. -/
def comparer_eq {U : TypeUniverse σ} {Types : List σ} (lhs : Variant U Types) :
    (t : σ) → U.interp t → Except VErr Bool :=
  fun t y => (lhs.get t).bind fun l => .ok (U.beq t l y)

/-- `detail::comparer<Variant, less_comp>` as a unary visitor. -/
def comparer_lt {U : TypeUniverse σ} {Types : List σ} (lhs : Variant U Types) :
    (t : σ) → U.interp t → Except VErr Bool :=
  fun t y => (lhs.get t).bind fun l => .ok (U.blt t l y)

/-- `variant::operator==`: differing discriminants give `false`; otherwise
visit the right side with the equality comparer. -/
def veq {U : TypeUniverse σ} {Types : List σ} (a b : Variant U Types) :
    Except VErr Bool :=
  if a.type_index ≠ b.type_index then .ok false
  else visit b (comparer_eq a)

/-- `variant::operator<`: differing discriminants compare by discriminant
value; otherwise visit the right side with the less-than comparer. -/
def vlt {U : TypeUniverse σ} {Types : List σ} (a b : Variant U Types) :
    Except VErr Bool :=
  if a.type_index ≠ b.type_index then .ok (decide (a.type_index < b.type_index))
  else visit b (comparer_lt a)

/-- `operator<<` via `detail::printer`: a unary visit whose visitor renders
the (unwrapped) active value with its own textual representation `sh`. -/
def vformat {U : TypeUniverse σ} {Types : List σ}
    (sh : (t : σ) → U.interp t → String) (v : Variant U Types) :
    Except VErr String :=
  visit v (fun t y => .ok (sh t y))

/-- `variant_helper<Types...>::copy(old_id, old_value, new_value)`: match the
id against the list; at the match, reinterpret the source storage at the head
type and run that type's copy constructor into fresh storage; an exhausted
list is a no-op, leaving the destination uninitialized.  Reinterpreting at the
wrong type is UB, marked `VErr.undefined` and unreachable from well-formed
states. -/
def helper_copy (U : TypeUniverse σ) (id : Nat)
    (src : Option (Σ t : σ, U.interp t)) :
    List σ → Except VErr (Option (Σ t : σ, U.interp t))
  | [] => .ok none
  | T :: rest =>
    if id = rest.length then
      match src with
      | some ⟨t, x⟩ =>
        if h : t = T then (U.copy T (h ▸ x)).map (fun y => some ⟨T, y⟩)
        else .error .undefined
      | none => .error .undefined
    else helper_copy U id src rest

/-- Copy constructor `variant(variant const& old)`: copy the discriminant and
copy-construct the storage through the lifetime helper. -/
def copy_ctor {U : TypeUniverse σ} {Types : List σ} (v : Variant U Types) :
    Except VErr (Variant U Types) :=
  (helper_copy U v.type_index v.data Types).map fun d => ⟨v.type_index, d⟩

/-- `swap(first, second)`: exchange discriminants and storage bytes. -/
def vswap {U : TypeUniverse σ} {Types : List σ} (a b : Variant U Types) :
    Variant U Types × Variant U Types :=
  (⟨b.type_index, b.data⟩, ⟨a.type_index, a.data⟩)

/-- `variant::operator=(variant other)`: the parameter is copy-constructed by
value; if that construction throws, the exception propagates and `*this` is
untouched; otherwise swap `*this` with the temporary.  Returns the new state
of the target together with the outcome. -/
def assign {U : TypeUniverse σ} {Types : List σ}
    (self other : Variant U Types) : Variant U Types × Except VErr Unit :=
  match copy_ctor other with
  | .error e => (self, .error e)
  | .ok tmp => ((vswap self tmp).1, .ok ())

/-- Modelled from the spec: `recursive_wrapper.hpp` is included by
`src/variant.hpp` but its source is not under `src/`.  Per §4.7 it is a box
owning exactly one heap-allocated payload; `get` returns the payload and
`recursive_wrapper<T>::type` is `T`.  Heap indirection and deep copy have no
observable effect in a value model, so the box is just the payload. -/
structure recursive_wrapper (A : Type) where
  get : A
deriving DecidableEq

/-- Type names for the concrete instantiations: the spec's example
alternatives Integer (`cInt`) and Text (`cText`), plus a
`recursive_wrapper<Integer>` alternative (`cWrapInt`). -/
inductive CName where
  | cInt
  | cText
  | cWrapInt
deriving DecidableEq

/-- Carrier of each concrete type name. -/
@[reducible] def CInterp : CName → Type
  | .cInt => Int
  | .cText => String
  | .cWrapInt => recursive_wrapper Int

/-- The concrete universe: `cWrapInt` unwraps (per `detail::unwrapper`'s
`recursive_wrapper` specialization) to `cInt`; the other names are plain.
Equality/ordering are the carriers' own; copies never throw. -/
@[reducible] def CU : TypeUniverse CName where
  interp := CInterp
  strip := fun t => match t with
    | .cWrapInt => .cInt
    | t => t
  unwrap := fun t => match t with
    | .cInt => fun x => x
    | .cText => fun x => x
    | .cWrapInt => fun x => x.get
  beq := fun t => match t with
    | .cInt => fun a b => decide (a = b)
    | .cText => fun a b => decide (a = b)
    | .cWrapInt => fun a b => decide (a.get = b.get)
  blt := fun t => match t with
    | .cInt => fun a b => decide (a < b)
    | .cText => fun a b => decide (a < b)
    | .cWrapInt => fun a b => decide (a.get < b.get)
  copy := fun t => fun x => .ok x

/-- A universe identical to `CU` except that copying the Integer value `13`
throws, modelling an alternative whose copy constructor can fail (used for
the exception-safety claim about assignment). -/
@[reducible] def CUF : TypeUniverse CName where
  interp := CInterp
  strip := fun t => match t with
    | .cWrapInt => .cInt
    | t => t
  unwrap := fun t => match t with
    | .cInt => fun x => x
    | .cText => fun x => x
    | .cWrapInt => fun x => x.get
  beq := fun t => match t with
    | .cInt => fun a b => decide (a = b)
    | .cText => fun a b => decide (a = b)
    | .cWrapInt => fun a b => decide (a.get = b.get)
  blt := fun t => match t with
    | .cInt => fun a b => decide (a < b)
    | .cText => fun a b => decide (a < b)
    | .cWrapInt => fun a b => decide (a.get < b.get)
  copy := fun t => match t with
    | .cInt => fun x => if x = 13 then .error .payloadCopyThrow else .ok x
    | .cText => fun x => .ok x
    | .cWrapInt => fun x => .ok x

/-- The spec's example declared list `{Integer, Text}`. -/
def TypesIT : List CName := [.cInt, .cText]

/-- A declared list with a recursive-wrapper alternative:
`{recursive_wrapper<Integer>, Text}`. -/
def TypesW : List CName := [.cWrapInt, .cText]

/-- The example container `a = Integer(5)`. -/
def exA : Variant CU TypesIT := variant_of CU TypesIT .cInt 5

/-- The example container `b = Text("hi")`. -/
def exB : Variant CU TypesIT := variant_of CU TypesIT .cText "hi"

/-- A container holding the recursive-wrapper alternative. -/
def exW : Variant CU TypesW := variant_of CU TypesW .cWrapInt ⟨7⟩

/-- A binary visitor that records the two type names it is invoked at. -/
def recordNames : (s t : CName) → CU.interp s → CU.interp t →
    Except VErr (CName × CName) :=
  fun s t _ _ => .ok (s, t)

/-- A unary visitor that records the type name it is invoked at. -/
def recordName1 : (t : CName) → CU.interp t → Except VErr CName :=
  fun t _ => .ok t

/-- Another container holding the recursive-wrapper alternative. -/
def exW2 : Variant CU TypesW := variant_of CU TypesW .cWrapInt ⟨9⟩

/-- Assignment target for the exception-safety scenario (throwing universe). -/
def selfF : Variant CUF TypesIT := variant_of CUF TypesIT .cText "s"

/-- Assignment source whose payload copies cleanly. -/
def otherF : Variant CUF TypesIT := variant_of CUF TypesIT .cInt 5

/-- Assignment source whose payload copy constructor throws. -/
def otherF13 : Variant CUF TypesIT := variant_of CUF TypesIT .cInt 13

lemma sigma_mk_eq {F : σ → Type} {a b : σ} (h : a = b) {x : F a} {y : F b}
    (h2 : HEq x y) : (⟨a, x⟩ : Sigma F) = ⟨b, y⟩ := by
  subst h
  exact congrArg (Sigma.mk a) (eq_of_heq h2)

lemma plainTy_app {U : TypeUniverse σ} {t : σ} (hp : PlainTy U t)
    (x : U.interp t) {γ : Type} (f : (s : σ) → U.interp s → γ) :
    f (U.strip t) (U.unwrap t x) = f t x := by
  obtain ⟨hs, hu⟩ := hp
  have key : (⟨U.strip t, U.unwrap t x⟩ : Sigma U.interp) = ⟨t, x⟩ :=
    sigma_mk_eq hs (hu x)
  exact congrArg (fun p : Sigma U.interp => f p.1 p.2) key

lemma type_traits_id_of_not_mem {t : σ} {L : List σ} (h : t ∉ L) :
    type_traits_id t L = invalid_value := by
  induction L with
  | nil => rfl
  | cons first rest ih =>
    simp only [List.mem_cons, not_or] at h
    simp [type_traits_id, h.1, ih h.2]

lemma type_traits_id_lt_length {t : σ} {L : List σ} (h : t ∈ L) :
    type_traits_id t L < L.length := by
  induction L with
  | nil => cases h
  | cons first rest ih =>
    by_cases he : t = first
    · simp [type_traits_id, he]
    · have hm : t ∈ rest := (List.mem_cons.mp h).resolve_left he
      simp only [type_traits_id, if_neg he, List.length_cons]
      exact Nat.lt_succ_of_lt (ih hm)

lemma type_traits_id_append {t : σ} {pre L2 : List σ}
    (hnd : (pre ++ L2).Nodup) (hm : t ∈ L2) :
    type_traits_id t (pre ++ L2) = type_traits_id t L2 := by
  induction pre with
  | nil => rfl
  | cons p pre ih =>
    have hne : t ≠ p := by
      intro he
      subst he
      exact (List.nodup_cons.mp hnd).1 (List.mem_append_right pre hm)
    rw [List.cons_append, type_traits_id, if_neg hne]
    exact ih (List.nodup_cons.mp hnd).2

lemma type_traits_id_ge_of_mem_pre {u : σ} {pre L2 : List σ}
    (hnd : (pre ++ L2).Nodup) (hm : u ∈ pre) :
    L2.length ≤ type_traits_id u (pre ++ L2) := by
  induction pre with
  | nil => cases hm
  | cons p pre ih =>
    by_cases he : u = p
    · subst he
      rw [List.cons_append, type_traits_id, if_pos rfl, List.length_append]
      omega
    · have hm2 : u ∈ pre := (List.mem_cons.mp hm).resolve_left he
      rw [List.cons_append, type_traits_id, if_neg he]
      exact ih (List.nodup_cons.mp hnd).2 hm2

lemma type_traits_id_inj {L : List σ} (hnd : L.Nodup) {t1 t2 : σ}
    (h1 : t1 ∈ L) (h2 : t2 ∈ L)
    (he : type_traits_id t1 L = type_traits_id t2 L) : t1 = t2 := by
  induction L with
  | nil => cases h1
  | cons first rest ih =>
    by_cases e1 : t1 = first <;> by_cases e2 : t2 = first
    · exact e1.trans e2.symm
    · exfalso
      have hm2 : t2 ∈ rest := (List.mem_cons.mp h2).resolve_left e2
      rw [type_traits_id, if_pos e1, type_traits_id, if_neg e2] at he
      have := type_traits_id_lt_length hm2
      omega
    · exfalso
      have hm1 : t1 ∈ rest := (List.mem_cons.mp h1).resolve_left e1
      rw [type_traits_id, if_neg e1, type_traits_id, if_pos e2] at he
      have := type_traits_id_lt_length hm1
      omega
    · have hm1 : t1 ∈ rest := (List.mem_cons.mp h1).resolve_left e1
      have hm2 : t2 ∈ rest := (List.mem_cons.mp h2).resolve_left e2
      rw [type_traits_id, if_neg e1, type_traits_id, if_neg e2] at he
      exact ih (List.nodup_cons.mp hnd).2 hm1 hm2 he

lemma type_traits_id_getElem {L : List σ} (hnd : L.Nodup) (i : Nat)
    (hi : i < L.length) :
    type_traits_id (L[i]) L = L.length - 1 - i := by
  induction L generalizing i with
  | nil => simp at hi
  | cons first rest ih =>
    cases i with
    | zero => simp [type_traits_id]
    | succ n =>
      have hn : n < rest.length := by
        simpa [List.length_cons] using hi
      have hne : (rest[n]) ≠ first := by
        intro he
        exact (List.nodup_cons.mp hnd).1 (he ▸ List.getElem_mem hn)
      rw [List.getElem_cons_succ, type_traits_id, if_neg hne,
        ih (List.nodup_cons.mp hnd).2 n hn]
      simp only [List.length_cons]
      omega

lemma is_valid_type_iff_mem {t : σ} {L : List σ} :
    is_valid_type t L = true ↔ t ∈ L := by
  induction L with
  | nil => simp [is_valid_type]
  | cons first rest ih =>
    simp [is_valid_type, ih, List.mem_cons]

lemma get_ok {U : TypeUniverse σ} {Types : List σ} {v : Variant U Types}
    {t : σ} {x : U.interp t} (hd : v.data = some ⟨t, x⟩)
    (hti : v.type_index = type_traits_id t Types) :
    v.get t = .ok x := by
  unfold Variant.get
  rw [if_pos hti, hd]
  simp

lemma get_mismatch {U : TypeUniverse σ} {Types : List σ} {v : Variant U Types}
    {t : σ} (h : v.type_index ≠ type_traits_id t Types) :
    v.get t = .error .typeMismatch := by
  unfold Variant.get
  rw [if_neg h]

lemma dispatcher_live {U : TypeUniverse σ} {Types : List σ} {R : Type}
    (hnd : Types.Nodup) (f : (t : σ) → U.interp t → Except VErr R)
    {v : Variant U Types} {t : σ} {x : U.interp t}
    (hd : v.data = some ⟨t, x⟩)
    (hti : v.type_index = type_traits_id t Types) :
    ∀ (L2 pre : List σ), pre ++ L2 = Types → t ∈ L2 →
      dispatcher f v L2 = f (U.strip t) (U.unwrap t x) := by
  intro L2
  induction L2 with
  | nil => intro pre _ hm; cases hm
  | cons T rest ih =>
    intro pre happ hm
    have hndl : (pre ++ (T :: rest)).Nodup := by rw [happ]; exact hnd
    have hid : type_traits_id t Types = type_traits_id t (T :: rest) := by
      rw [← happ]
      exact type_traits_id_append hndl hm
    by_cases he : t = T
    · subst he
      have hc : v.type_index = rest.length := by
        rw [hti, hid, type_traits_id, if_pos rfl]
      simp only [dispatcher]
      rw [if_pos hc, get_ok hd hti]
      rfl
    · have hm2 : t ∈ rest := (List.mem_cons.mp hm).resolve_left he
      have hc : v.type_index ≠ rest.length := by
        rw [hti, hid, type_traits_id, if_neg he]
        exact Nat.ne_of_lt (type_traits_id_lt_length hm2)
      simp only [dispatcher]
      rw [if_neg hc]
      exact ih (pre ++ [T]) (by rw [List.append_assoc]; simpa using happ) hm2

lemma dispatcher_inv {U : TypeUniverse σ} {Types : List σ} {R : Type}
    (f : (t : σ) → U.interp t → Except VErr R) {v : Variant U Types}
    (hti : v.type_index = invalid_value) :
    ∀ L2 : List σ, L2.length ≤ invalid_value →
      dispatcher f v L2 = .error .unaryDispatchFail := by
  intro L2
  induction L2 with
  | nil => intro _; rfl
  | cons T rest ih =>
    intro hlen
    simp only [List.length_cons] at hlen
    have hc : v.type_index ≠ rest.length := by rw [hti]; omega
    simp only [dispatcher]
    rw [if_neg hc]
    exact ih (by omega)

lemma visit_live {U : TypeUniverse σ} {Types : List σ} {R : Type}
    (hnd : Types.Nodup) (f : (t : σ) → U.interp t → Except VErr R)
    {v : Variant U Types} {t : σ} {x : U.interp t}
    (hd : v.data = some ⟨t, x⟩)
    (hti : v.type_index = type_traits_id t Types) (hm : t ∈ Types) :
    visit v f = f (U.strip t) (U.unwrap t x) :=
  dispatcher_live hnd f hd hti Types [] rfl hm

lemma visit_inv {U : TypeUniverse σ} {Types : List σ} {R : Type}
    (f : (t : σ) → U.interp t → Except VErr R) {v : Variant U Types}
    (hti : v.type_index = invalid_value)
    (hlen : Types.length ≤ invalid_value) :
    visit v f = .error .unaryDispatchFail :=
  dispatcher_inv f hti Types hlen

lemma binary_rhs_live {U : TypeUniverse σ} {Types : List σ} {R : Type}
    (hnd : Types.Nodup)
    (f : (s t : σ) → U.interp s → U.interp t → Except VErr R)
    {v0 v1 : Variant U Types} {t0 : σ} {x : U.interp t0} {t1 : σ}
    {y : U.interp t1}
    (hd0 : v0.data = some ⟨t0, x⟩)
    (hti0 : v0.type_index = type_traits_id t0 Types)
    (hd1 : v1.data = some ⟨t1, y⟩)
    (hti1 : v1.type_index = type_traits_id t1 Types) :
    ∀ (L2 pre : List σ), pre ++ L2 = Types → t1 ∈ L2 →
      binary_dispatcher_rhs f v0 v1 t0 L2 =
        f (U.strip t0) (U.strip t1) (U.unwrap t0 x) (U.unwrap t1 y) := by
  intro L2
  induction L2 with
  | nil => intro pre _ hm; cases hm
  | cons T rest ih =>
    intro pre happ hm
    have hndl : (pre ++ (T :: rest)).Nodup := by rw [happ]; exact hnd
    have hid : type_traits_id t1 Types = type_traits_id t1 (T :: rest) := by
      rw [← happ]
      exact type_traits_id_append hndl hm
    by_cases he : t1 = T
    · subst he
      have hc : v1.type_index = rest.length := by
        rw [hti1, hid, type_traits_id, if_pos rfl]
      simp only [binary_dispatcher_rhs]
      rw [if_pos hc, get_ok hd0 hti0, get_ok hd1 hti1]
      rfl
    · have hm2 : t1 ∈ rest := (List.mem_cons.mp hm).resolve_left he
      have hc : v1.type_index ≠ rest.length := by
        rw [hti1, hid, type_traits_id, if_neg he]
        exact Nat.ne_of_lt (type_traits_id_lt_length hm2)
      simp only [binary_dispatcher_rhs]
      rw [if_neg hc]
      exact ih (pre ++ [T]) (by rw [List.append_assoc]; simpa using happ) hm2

lemma binary_rhs_inv {U : TypeUniverse σ} {Types : List σ} {R : Type}
    (f : (s t : σ) → U.interp s → U.interp t → Except VErr R)
    {v0 v1 : Variant U Types} (t0 : σ)
    (hti1 : v1.type_index = invalid_value) :
    ∀ L2 : List σ, L2.length ≤ invalid_value →
      binary_dispatcher_rhs f v0 v1 t0 L2 = .error .binaryDispatchFail := by
  intro L2
  induction L2 with
  | nil => intro _; rfl
  | cons T rest ih =>
    intro hlen
    simp only [List.length_cons] at hlen
    have hc : v1.type_index ≠ rest.length := by rw [hti1]; omega
    simp only [binary_dispatcher_rhs]
    rw [if_neg hc]
    exact ih (by omega)

lemma binary_lhs_live {U : TypeUniverse σ} {Types : List σ} {R : Type}
    (hnd : Types.Nodup)
    (f : (s t : σ) → U.interp s → U.interp t → Except VErr R)
    {v0 v1 : Variant U Types} {t0 : σ} {x : U.interp t0} {t1 : σ}
    {y : U.interp t1}
    (hd0 : v0.data = some ⟨t0, x⟩)
    (hti0 : v0.type_index = type_traits_id t0 Types)
    (hd1 : v1.data = some ⟨t1, y⟩)
    (hti1 : v1.type_index = type_traits_id t1 Types) :
    ∀ (L2 pre : List σ), pre ++ L2 = Types → t0 ∈ L2 →
      binary_dispatcher_lhs f v0 v1 t1 L2 = f t0 t1 x y := by
  intro L2
  induction L2 with
  | nil => intro pre _ hm; cases hm
  | cons T rest ih =>
    intro pre happ hm
    have hndl : (pre ++ (T :: rest)).Nodup := by rw [happ]; exact hnd
    have hid : type_traits_id t0 Types = type_traits_id t0 (T :: rest) := by
      rw [← happ]
      exact type_traits_id_append hndl hm
    by_cases he : t0 = T
    · subst he
      have hc : v0.type_index = rest.length := by
        rw [hti0, hid, type_traits_id, if_pos rfl]
      simp only [binary_dispatcher_lhs]
      rw [if_pos hc, get_ok hd0 hti0, get_ok hd1 hti1]
      rfl
    · have hm2 : t0 ∈ rest := (List.mem_cons.mp hm).resolve_left he
      have hc : v0.type_index ≠ rest.length := by
        rw [hti0, hid, type_traits_id, if_neg he]
        exact Nat.ne_of_lt (type_traits_id_lt_length hm2)
      simp only [binary_dispatcher_lhs]
      rw [if_neg hc]
      exact ih (pre ++ [T]) (by rw [List.append_assoc]; simpa using happ) hm2

lemma binary_lhs_inv {U : TypeUniverse σ} {Types : List σ} {R : Type}
    (f : (s t : σ) → U.interp s → U.interp t → Except VErr R)
    {v0 v1 : Variant U Types} (t1 : σ)
    (hti0 : v0.type_index = invalid_value) :
    ∀ L2 : List σ, L2.length ≤ invalid_value →
      binary_dispatcher_lhs f v0 v1 t1 L2 = .error .binaryDispatchFail := by
  intro L2
  induction L2 with
  | nil => intro _; rfl
  | cons T rest ih =>
    intro hlen
    simp only [List.length_cons] at hlen
    have hc : v0.type_index ≠ rest.length := by rw [hti0]; omega
    simp only [binary_dispatcher_lhs]
    rw [if_neg hc]
    exact ih (by omega)

lemma binary_main_same {U : TypeUniverse σ} {Types : List σ} {R : Type}
    (hnd : Types.Nodup)
    (f : (s t : σ) → U.interp s → U.interp t → Except VErr R)
    {v0 v1 : Variant U Types} {X : σ} {x y : U.interp X}
    (hd0 : v0.data = some ⟨X, x⟩)
    (hti0 : v0.type_index = type_traits_id X Types)
    (hd1 : v1.data = some ⟨X, y⟩)
    (hti1 : v1.type_index = type_traits_id X Types) :
    ∀ (L2 pre : List σ), pre ++ L2 = Types → X ∈ L2 →
      binary_dispatcher f v0 v1 L2 = f X X x y := by
  intro L2
  induction L2 with
  | nil => intro pre _ hm; cases hm
  | cons T rest ih =>
    intro pre happ hm
    have hndl : (pre ++ (T :: rest)).Nodup := by rw [happ]; exact hnd
    have hid : type_traits_id X Types = type_traits_id X (T :: rest) := by
      rw [← happ]
      exact type_traits_id_append hndl hm
    by_cases he : X = T
    · subst he
      have hc : v0.type_index = rest.length := by
        rw [hti0, hid, type_traits_id, if_pos rfl]
      simp only [binary_dispatcher]
      rw [if_pos hc, if_pos (by rw [hti0, hti1]), get_ok hd0 hti0,
        get_ok hd1 hti1]
      rfl
    · have hm2 : X ∈ rest := (List.mem_cons.mp hm).resolve_left he
      have hc : v0.type_index ≠ rest.length := by
        rw [hti0, hid, type_traits_id, if_neg he]
        exact Nat.ne_of_lt (type_traits_id_lt_length hm2)
      have hc1 : v1.type_index ≠ rest.length := by
        rw [hti1, hid, type_traits_id, if_neg he]
        exact Nat.ne_of_lt (type_traits_id_lt_length hm2)
      simp only [binary_dispatcher]
      rw [if_neg hc, if_neg hc1]
      exact ih (pre ++ [T]) (by rw [List.append_assoc]; simpa using happ) hm2

lemma binary_main_hetero_rhs {U : TypeUniverse σ} {Types : List σ} {R : Type}
    (hnd : Types.Nodup)
    (f : (s t : σ) → U.interp s → U.interp t → Except VErr R)
    {v0 v1 : Variant U Types} {X : σ} {x : U.interp X} {Y : σ}
    {y : U.interp Y}
    (hd0 : v0.data = some ⟨X, x⟩)
    (hti0 : v0.type_index = type_traits_id X Types)
    (hd1 : v1.data = some ⟨Y, y⟩)
    (hti1 : v1.type_index = type_traits_id Y Types)
    (hlt : type_traits_id Y Types < type_traits_id X Types) :
    ∀ (L2 pre : List σ), pre ++ L2 = Types → X ∈ L2 → Y ∈ L2 →
      binary_dispatcher f v0 v1 L2 =
        f (U.strip X) (U.strip Y) (U.unwrap X x) (U.unwrap Y y) := by
  have hne : X ≠ Y := by
    intro he
    subst he
    exact Nat.lt_irrefl _ hlt
  intro L2
  induction L2 with
  | nil => intro pre _ hm; cases hm
  | cons T rest ih =>
    intro pre happ hmX hmY
    have hndl : (pre ++ (T :: rest)).Nodup := by rw [happ]; exact hnd
    have hidX : type_traits_id X Types = type_traits_id X (T :: rest) := by
      rw [← happ]
      exact type_traits_id_append hndl hmX
    have hidY : type_traits_id Y Types = type_traits_id Y (T :: rest) := by
      rw [← happ]
      exact type_traits_id_append hndl hmY
    by_cases he : X = T
    · subst he
      have hc : v0.type_index = rest.length := by
        rw [hti0, hidX, type_traits_id, if_pos rfl]
      have hcne : v0.type_index ≠ v1.type_index := by
        rw [hti0, hti1]
        omega
      simp only [binary_dispatcher]
      rw [if_pos hc, if_neg hcne]
      have hmY2 : Y ∈ rest := (List.mem_cons.mp hmY).resolve_left
        (fun h2 => hne (h2 ▸ rfl))
      exact binary_rhs_live hnd f hd0 hti0 hd1 hti1 rest (pre ++ [X])
        (by rw [List.append_assoc]; simpa using happ) hmY2
    · by_cases he2 : Y = T
      · exfalso
        subst he2
        have h1 : type_traits_id Y Types = rest.length := by
          rw [hidY, type_traits_id, if_pos rfl]
        have hmX2 : X ∈ rest := (List.mem_cons.mp hmX).resolve_left he
        have h2 : type_traits_id X Types < rest.length := by
          rw [hidX, type_traits_id, if_neg he]
          exact type_traits_id_lt_length hmX2
        omega
      · have hmX2 : X ∈ rest := (List.mem_cons.mp hmX).resolve_left he
        have hmY2 : Y ∈ rest := (List.mem_cons.mp hmY).resolve_left he2
        have hc : v0.type_index ≠ rest.length := by
          rw [hti0, hidX, type_traits_id, if_neg he]
          exact Nat.ne_of_lt (type_traits_id_lt_length hmX2)
        have hc1 : v1.type_index ≠ rest.length := by
          rw [hti1, hidY, type_traits_id, if_neg he2]
          exact Nat.ne_of_lt (type_traits_id_lt_length hmY2)
        simp only [binary_dispatcher]
        rw [if_neg hc, if_neg hc1]
        exact ih (pre ++ [T]) (by rw [List.append_assoc]; simpa using happ)
          hmX2 hmY2

lemma binary_main_hetero_lhs {U : TypeUniverse σ} {Types : List σ} {R : Type}
    (hnd : Types.Nodup)
    (f : (s t : σ) → U.interp s → U.interp t → Except VErr R)
    {v0 v1 : Variant U Types} {X : σ} {x : U.interp X} {Y : σ}
    {y : U.interp Y}
    (hd0 : v0.data = some ⟨X, x⟩)
    (hti0 : v0.type_index = type_traits_id X Types)
    (hd1 : v1.data = some ⟨Y, y⟩)
    (hti1 : v1.type_index = type_traits_id Y Types)
    (hlt : type_traits_id X Types < type_traits_id Y Types) :
    ∀ (L2 pre : List σ), pre ++ L2 = Types → X ∈ L2 → Y ∈ L2 →
      binary_dispatcher f v0 v1 L2 = f X Y x y := by
  have hne : X ≠ Y := by
    intro he
    subst he
    exact Nat.lt_irrefl _ hlt
  intro L2
  induction L2 with
  | nil => intro pre _ hm; cases hm
  | cons T rest ih =>
    intro pre happ hmX hmY
    have hndl : (pre ++ (T :: rest)).Nodup := by rw [happ]; exact hnd
    have hidX : type_traits_id X Types = type_traits_id X (T :: rest) := by
      rw [← happ]
      exact type_traits_id_append hndl hmX
    have hidY : type_traits_id Y Types = type_traits_id Y (T :: rest) := by
      rw [← happ]
      exact type_traits_id_append hndl hmY
    by_cases he2 : Y = T
    · subst he2
      have hcY : v1.type_index = rest.length := by
        rw [hti1, hidY, type_traits_id, if_pos rfl]
      have hmX2 : X ∈ rest := (List.mem_cons.mp hmX).resolve_left hne
      have hc : v0.type_index ≠ rest.length := by
        rw [hti0, hidX, type_traits_id, if_neg hne]
        exact Nat.ne_of_lt (type_traits_id_lt_length hmX2)
      simp only [binary_dispatcher]
      rw [if_neg hc, if_pos hcY]
      exact binary_lhs_live hnd f hd0 hti0 hd1 hti1 rest (pre ++ [Y])
        (by rw [List.append_assoc]; simpa using happ) hmX2
    · by_cases he : X = T
      · exfalso
        subst he
        have h1 : type_traits_id X Types = rest.length := by
          rw [hidX, type_traits_id, if_pos rfl]
        have hmY2 : Y ∈ rest := (List.mem_cons.mp hmY).resolve_left he2
        have h2 : type_traits_id Y Types < rest.length := by
          rw [hidY, type_traits_id, if_neg he2]
          exact type_traits_id_lt_length hmY2
        omega
      · have hmX2 : X ∈ rest := (List.mem_cons.mp hmX).resolve_left he
        have hmY2 : Y ∈ rest := (List.mem_cons.mp hmY).resolve_left he2
        have hc : v0.type_index ≠ rest.length := by
          rw [hti0, hidX, type_traits_id, if_neg he]
          exact Nat.ne_of_lt (type_traits_id_lt_length hmX2)
        have hc1 : v1.type_index ≠ rest.length := by
          rw [hti1, hidY, type_traits_id, if_neg he2]
          exact Nat.ne_of_lt (type_traits_id_lt_length hmY2)
        simp only [binary_dispatcher]
        rw [if_neg hc, if_neg hc1]
        exact ih (pre ++ [T]) (by rw [List.append_assoc]; simpa using happ)
          hmX2 hmY2

lemma binary_main_live_inv {U : TypeUniverse σ} {Types : List σ} {R : Type}
    (hnd : Types.Nodup)
    (f : (s t : σ) → U.interp s → U.interp t → Except VErr R)
    {v0 v1 : Variant U Types} {X : σ} {x : U.interp X}
    (hd0 : v0.data = some ⟨X, x⟩)
    (hti0 : v0.type_index = type_traits_id X Types)
    (hti1 : v1.type_index = invalid_value)
    (hlenT : Types.length ≤ invalid_value) :
    ∀ (L2 pre : List σ), pre ++ L2 = Types → X ∈ L2 →
      binary_dispatcher f v0 v1 L2 = .error .binaryDispatchFail := by
  have hmT : X ∈ Types → type_traits_id X Types < Types.length :=
    fun h => type_traits_id_lt_length h
  intro L2
  induction L2 with
  | nil => intro pre _ hm; cases hm
  | cons T rest ih =>
    intro pre happ hm
    have hndl : (pre ++ (T :: rest)).Nodup := by rw [happ]; exact hnd
    have hid : type_traits_id X Types = type_traits_id X (T :: rest) := by
      rw [← happ]
      exact type_traits_id_append hndl hm
    have hmX : X ∈ Types := by
      rw [← happ]
      exact List.mem_append_right pre hm
    have hrl : rest.length < Types.length := by
      rw [← happ]
      simp only [List.length_append, List.length_cons]
      omega
    by_cases he : X = T
    · subst he
      have hc : v0.type_index = rest.length := by
        rw [hti0, hid, type_traits_id, if_pos rfl]
      have hcne : v0.type_index ≠ v1.type_index := by
        rw [hti0, hti1]
        have := hmT hmX
        omega
      simp only [binary_dispatcher]
      rw [if_pos hc, if_neg hcne]
      exact binary_rhs_inv f X hti1 rest (by omega)
    · have hm2 : X ∈ rest := (List.mem_cons.mp hm).resolve_left he
      have hc : v0.type_index ≠ rest.length := by
        rw [hti0, hid, type_traits_id, if_neg he]
        exact Nat.ne_of_lt (type_traits_id_lt_length hm2)
      have hc1 : v1.type_index ≠ rest.length := by
        rw [hti1]
        omega
      simp only [binary_dispatcher]
      rw [if_neg hc, if_neg hc1]
      exact ih (pre ++ [T]) (by rw [List.append_assoc]; simpa using happ) hm2

lemma binary_main_inv_live {U : TypeUniverse σ} {Types : List σ} {R : Type}
    (hnd : Types.Nodup)
    (f : (s t : σ) → U.interp s → U.interp t → Except VErr R)
    {v0 v1 : Variant U Types} {Y : σ} {y : U.interp Y}
    (hti0 : v0.type_index = invalid_value)
    (hd1 : v1.data = some ⟨Y, y⟩)
    (hti1 : v1.type_index = type_traits_id Y Types)
    (hlenT : Types.length ≤ invalid_value) :
    ∀ (L2 pre : List σ), pre ++ L2 = Types → Y ∈ L2 →
      binary_dispatcher f v0 v1 L2 = .error .binaryDispatchFail := by
  intro L2
  induction L2 with
  | nil => intro pre _ hm; cases hm
  | cons T rest ih =>
    intro pre happ hm
    have hndl : (pre ++ (T :: rest)).Nodup := by rw [happ]; exact hnd
    have hid : type_traits_id Y Types = type_traits_id Y (T :: rest) := by
      rw [← happ]
      exact type_traits_id_append hndl hm
    have hrl : rest.length < Types.length := by
      rw [← happ]
      simp only [List.length_append, List.length_cons]
      omega
    have hc0 : v0.type_index ≠ rest.length := by
      rw [hti0]
      omega
    by_cases he : Y = T
    · subst he
      have hc : v1.type_index = rest.length := by
        rw [hti1, hid, type_traits_id, if_pos rfl]
      simp only [binary_dispatcher]
      rw [if_neg hc0, if_pos hc]
      exact binary_lhs_inv f Y hti0 rest (by omega)
    · have hm2 : Y ∈ rest := (List.mem_cons.mp hm).resolve_left he
      have hc1 : v1.type_index ≠ rest.length := by
        rw [hti1, hid, type_traits_id, if_neg he]
        exact Nat.ne_of_lt (type_traits_id_lt_length hm2)
      simp only [binary_dispatcher]
      rw [if_neg hc0, if_neg hc1]
      exact ih (pre ++ [T]) (by rw [List.append_assoc]; simpa using happ) hm2

lemma veq_of_ne_index {U : TypeUniverse σ} {Types : List σ}
    {a b : Variant U Types} (h : a.type_index ≠ b.type_index) :
    veq a b = .ok false := by
  unfold veq
  rw [if_pos h]

lemma vlt_of_ne_index {U : TypeUniverse σ} {Types : List σ}
    {a b : Variant U Types} (h : a.type_index ≠ b.type_index) :
    vlt a b = .ok (decide (a.type_index < b.type_index)) := by
  unfold vlt
  rw [if_pos h]

lemma veq_same_index {U : TypeUniverse σ} {Types : List σ}
    (hnd : Types.Nodup) {a b : Variant U Types} {t : σ} {y : U.interp t}
    (hd : b.data = some ⟨t, y⟩)
    (hti : b.type_index = type_traits_id t Types) (hm : t ∈ Types)
    (hab : a.type_index = b.type_index) :
    veq a b = (a.get (U.strip t)).bind
      fun l => .ok (U.beq (U.strip t) l (U.unwrap t y)) := by
  unfold veq
  rw [if_neg (not_not_intro hab)]
  exact visit_live hnd (comparer_eq a) hd hti hm

lemma vlt_same_index {U : TypeUniverse σ} {Types : List σ}
    (hnd : Types.Nodup) {a b : Variant U Types} {t : σ} {y : U.interp t}
    (hd : b.data = some ⟨t, y⟩)
    (hti : b.type_index = type_traits_id t Types) (hm : t ∈ Types)
    (hab : a.type_index = b.type_index) :
    vlt a b = (a.get (U.strip t)).bind
      fun l => .ok (U.blt (U.strip t) l (U.unwrap t y)) := by
  unfold vlt
  rw [if_neg (not_not_intro hab)]
  exact visit_live hnd (comparer_lt a) hd hti hm

lemma helper_copy_live {U : TypeUniverse σ} {Types : List σ}
    (hnd : Types.Nodup) {t : σ} (x : U.interp t) :
    ∀ (L2 pre : List σ), pre ++ L2 = Types → t ∈ L2 →
      helper_copy U (type_traits_id t Types) (some ⟨t, x⟩) L2 =
        (U.copy t x).map (fun y => some ⟨t, y⟩) := by
  intro L2
  induction L2 with
  | nil => intro pre _ hm; cases hm
  | cons T rest ih =>
    intro pre happ hm
    have hndl : (pre ++ (T :: rest)).Nodup := by rw [happ]; exact hnd
    have hid : type_traits_id t Types = type_traits_id t (T :: rest) := by
      rw [← happ]
      exact type_traits_id_append hndl hm
    by_cases he : t = T
    · subst he
      have hc : type_traits_id t Types = rest.length := by
        rw [hid, type_traits_id, if_pos rfl]
      simp only [helper_copy]
      rw [if_pos hc]
      simp
    · have hm2 : t ∈ rest := (List.mem_cons.mp hm).resolve_left he
      have hc : type_traits_id t Types ≠ rest.length := by
        rw [hid, type_traits_id, if_neg he]
        exact Nat.ne_of_lt (type_traits_id_lt_length hm2)
      simp only [helper_copy]
      rw [if_neg hc]
      exact ih (pre ++ [T]) (by rw [List.append_assoc]; simpa using happ) hm2

lemma helper_copy_inv {U : TypeUniverse σ}
    (src : Option (Σ t : σ, U.interp t)) :
    ∀ L2 : List σ, L2.length ≤ invalid_value →
      helper_copy U invalid_value src L2 = .ok none := by
  intro L2
  induction L2 with
  | nil => intro _; rfl
  | cons T rest ih =>
    intro hlen
    simp only [List.length_cons] at hlen
    have hc : invalid_value ≠ rest.length := by omega
    simp only [helper_copy]
    rw [if_neg hc]
    exact ih (by omega)

lemma copy_ctor_wf {U : TypeUniverse σ} {Types : List σ} (hnd : Types.Nodup)
    (hlen : Types.length ≤ invalid_value) {v : Variant U Types} (hwf : WF v)
    (hfa : ∀ t x, v.data = some ⟨t, x⟩ → U.copy t x = .ok x) :
    copy_ctor v = .ok v := by
  rcases hwf with ⟨h1, h2⟩ | ⟨t, x, hm, hd, hti⟩
  · have hv : (⟨invalid_value, none⟩ : Variant U Types) = v := by
      rw [← h1, ← h2]
    unfold copy_ctor
    rw [h1, h2, helper_copy_inv none Types hlen]
    exact congrArg Except.ok hv
  · have hv : (⟨type_traits_id t Types, some ⟨t, x⟩⟩ : Variant U Types) = v := by
      rw [← hti, ← hd]
    unfold copy_ctor
    rw [hti, hd, helper_copy_live hnd x Types [] rfl hm, hfa t x hd]
    exact congrArg Except.ok hv

lemma sigma_snd_eq {F : σ → Type} {a : σ} {x y : F a}
    (h : (⟨a, x⟩ : Sigma F) = ⟨a, y⟩) : x = y := by
  injection h with h1 h2

/-- Claim C1, counterexample: in the example scenario `{Integer, Text}` with
`a = Integer(5)`, `b = Text("hi")`, the claim asserts `a < b` returns `true`;
the code returns `false`, because ids are assigned by reverse declaration
position (`Integer` gets id 1, `Text` id 0) and `operator<` compares
discriminants, so `a < b` is `1 < 0`. -/
theorem c1_counterexample : vlt exA exB ≠ .ok true := by
  have hv : vlt exA exB = .ok false := by rfl
  rw [hv]
  intro h
  exact Bool.noConfusion (Except.ok.inj h)

/-- Claim C1, amended: in the example scenario, `a.is<Integer>()` is true,
`a.get<Integer>()` is 5, `a == b` is false, and — since `Integer`'s
discriminant (1) is greater than `Text`'s (0) under reverse-position ids —
`a < b` returns false while `b < a` returns true. -/
theorem c1_amended : exA.is .cInt = true ∧ exA.get .cInt = .ok 5 ∧
    veq exA exB = .ok false ∧ vlt exA exB = .ok false ∧
    vlt exB exA = .ok true :=
  ⟨rfl, rfl, rfl, rfl, rfl⟩

/-- Claim C2: constructing a container from a value `x` of declared
alternative `T` yields `is<T>() = true`, `get<T>() = x`, and `is<U>() = false`
for every other declared alternative `U ≠ T`. -/
theorem c2_construct_spec {σ : Type} [DecidableEq σ] (U : TypeUniverse σ)
    (Types : List σ) (hnd : Types.Nodup) (T : σ) (hT : T ∈ Types)
    (x : U.interp T) (t2 : σ) (ht2 : t2 ∈ Types) (hne : t2 ≠ T) :
    (variant_of U Types T x).is T = true ∧
    (variant_of U Types T x).get T = .ok x ∧
    (variant_of U Types T x).is t2 = false := by
  refine ⟨?_, get_ok rfl rfl, ?_⟩
  · simp [Variant.is, variant_of]
  · simp only [Variant.is, variant_of]
    apply decide_eq_false
    intro he
    exact hne (type_traits_id_inj hnd hT ht2 he).symm

/-- Claim C2 witness at the concrete example list. -/
theorem c2_witness : (variant_of CU TypesIT .cInt (5 : Int)).is .cInt = true ∧
    (variant_of CU TypesIT .cInt (5 : Int)).get .cInt = .ok 5 ∧
    (variant_of CU TypesIT .cInt (5 : Int)).is .cText = false :=
  c2_construct_spec CU TypesIT (by decide) .cInt (by decide) 5 .cText
    (by decide) (by decide)

/-- Claim C3: over a distinct declared list, each alternative's id is its
reverse position (last gets 0, first gets N−1), ids are pairwise distinct and
lie in [0, N−1] (in particular below the invalid marker), and any name not in
the list maps to `invalid_value`. -/
theorem c3_registry_spec {σ : Type} [DecidableEq σ] (L : List σ)
    (hnd : L.Nodup) (hlen : L.length ≤ invalid_value) :
    (∀ (i : Nat) (hi : i < L.length),
      type_traits_id (L[i]) L = L.length - 1 - i) ∧
    (∀ (i j : Nat) (hi : i < L.length) (hj : j < L.length), i ≠ j →
      type_traits_id (L[i]) L ≠ type_traits_id (L[j]) L) ∧
    (∀ t ∈ L, type_traits_id t L ≤ L.length - 1 ∧
      type_traits_id t L < invalid_value) ∧
    (∀ t, t ∉ L → type_traits_id t L = invalid_value) := by
  refine ⟨fun i hi => type_traits_id_getElem hnd i hi, ?_, ?_, ?_⟩
  · intro i j hi hj hij
    rw [type_traits_id_getElem hnd i hi, type_traits_id_getElem hnd j hj]
    omega
  · intro t hm
    have h1 := type_traits_id_lt_length hm
    constructor <;> omega
  · exact fun t hm => type_traits_id_of_not_mem hm

/-- Claim C3 witness at the concrete example list: `Integer` (declared first
of two) gets id 1, and a name outside the list maps to the invalid marker. -/
theorem c3_witness : type_traits_id CName.cInt TypesIT = 1 ∧
    type_traits_id CName.cWrapInt TypesIT = invalid_value := by
  have h := c3_registry_spec TypesIT (by decide) (by decide)
  exact ⟨h.1 0 (by decide), h.2.2.2 CName.cWrapInt (by decide)⟩

/-- Claim C4: for declared `T` and a well-formed container, `get<T>()` yields
the live stored value exactly when the discriminant equals `id(T)`, and
otherwise raises the type-mismatch error.  `get` is read-only in the model
(it returns an `Except` and no new state), which is the C++ behaviour: a
failed `get` leaves discriminant and storage untouched and propagates the
exception. -/
theorem c4_get_spec {σ : Type} [DecidableEq σ] (U : TypeUniverse σ)
    (Types : List σ) (hnd : Types.Nodup) (hlen : Types.length ≤ invalid_value)
    (T : σ) (hT : T ∈ Types) (v : Variant U Types) (hwf : WF v) :
    (v.type_index = type_traits_id T Types →
      ∃ x, v.data = some ⟨T, x⟩ ∧ v.get T = .ok x) ∧
    (v.type_index ≠ type_traits_id T Types →
      v.get T = .error .typeMismatch) := by
  constructor
  · intro hti
    rcases hwf with ⟨h1, _⟩ | ⟨t, x, hm, hd, hti2⟩
    · exfalso
      have := type_traits_id_lt_length hT
      rw [h1] at hti
      omega
    · have he : t = T := type_traits_id_inj hnd hm hT (by rw [← hti2, hti])
      subst he
      exact ⟨x, hd, get_ok hd hti⟩
  · exact fun h => get_mismatch h

/-- Claim C4 witness: on `a = Integer(5)`, `get<Integer>()` returns 5 and
`get<Text>()` raises the type-mismatch error. -/
theorem c4_witness : exA.get .cInt = .ok 5 ∧
    exA.get .cText = .error .typeMismatch := by
  have hwf : WF exA := Or.inr ⟨.cInt, 5, by decide, rfl, rfl⟩
  have h1 := c4_get_spec CU TypesIT (by decide) (by decide) .cInt (by decide)
    exA hwf
  have h2 := c4_get_spec CU TypesIT (by decide) (by decide) .cText (by decide)
    exA hwf
  refine ⟨?_, h2.2 (by decide)⟩
  obtain ⟨x, hd, hg⟩ := h1.1 rfl
  have hd2 : (some ⟨CName.cInt, (5 : Int)⟩ : Option (Σ t, CU.interp t)) =
      some ⟨CName.cInt, x⟩ := hd
  have hx : (5 : Int) = x := sigma_snd_eq (Option.some.inj hd2)
  rw [← hx] at hg
  exact hg

/-- Claim C5, counterexample: over the declared list
`{recursive_wrapper<Integer>, Text}` with `w` holding the wrapper alternative,
`w == w` does not return `true` — the equality comparator receives the
unwrapped payload (an `Integer`) and calls `get<Integer>()` on the left side,
but `Integer` itself is not a declared alternative, so the comparison raises
the type-mismatch error; equality is therefore not reflexive for all live
containers. -/
theorem c5_counterexample : veq exW exW = .error .typeMismatch ∧
    veq exW exW ≠ .ok true := by
  refine ⟨rfl, ?_⟩
  intro h
  have h2 := h.symm.trans (rfl : veq exW exW = Except.error VErr.typeMismatch)
  exact Except.noConfusion h2

/-- Claim C5, amended: containers with differing discriminants are never
equal; for a declared alternative that is not an indirection box, same-
discriminant equality applies that type's own equality to the two payloads,
and is reflexive (when that equality is) and symmetric (when that equality
is); for an indirection-box alternative whose payload type is not itself
declared, same-discriminant equality instead raises the type-mismatch
error. -/
theorem c5_eq_spec {σ : Type} [DecidableEq σ] (U : TypeUniverse σ)
    (Types : List σ) (hnd : Types.Nodup) (t : σ) (ht : t ∈ Types)
    (hp : PlainTy U t) (xa xb : U.interp t) :
    (∀ a b : Variant U Types, a.type_index ≠ b.type_index →
      veq a b = .ok false) ∧
    veq (variant_of U Types t xa) (variant_of U Types t xb) =
      .ok (U.beq t xa xb) ∧
    (U.beq t xa xa = true →
      veq (variant_of U Types t xa) (variant_of U Types t xa) = .ok true) ∧
    ((∀ u v : U.interp t, U.beq t u v = U.beq t v u) →
      veq (variant_of U Types t xa) (variant_of U Types t xb) =
        veq (variant_of U Types t xb) (variant_of U Types t xa)) := by
  have key : ∀ ya yb : U.interp t,
      veq (variant_of U Types t ya) (variant_of U Types t yb) =
        .ok (U.beq t ya yb) := by
    intro ya yb
    have happ : ((variant_of U Types t ya).get (U.strip t)).bind
        (fun l => Except.ok (U.beq (U.strip t) l (U.unwrap t yb))) =
        ((variant_of U Types t ya).get t).bind
        (fun l => Except.ok (U.beq t l yb)) :=
      plainTy_app hp yb (fun s z => ((variant_of U Types t ya).get s).bind
        (fun l => Except.ok (U.beq s l z)))
    rw [@veq_same_index σ _ U Types hnd (variant_of U Types t ya)
      (variant_of U Types t yb) t yb rfl rfl ht rfl, happ, get_ok rfl rfl]
    rfl
  refine ⟨fun a b h => veq_of_ne_index h, key xa xb, ?_, ?_⟩
  · intro hr
    rw [key xa xa, hr]
  · intro hsym
    rw [key xa xb, key xb xa, hsym xa xb]

/-- Claim C5 witness: plain-alternative equality applies `Integer`'s own
equality, and differing discriminants give `false`. -/
theorem c5_witness :
    veq (variant_of CU TypesIT .cInt 3) (variant_of CU TypesIT .cInt 4) =
      .ok (CU.beq .cInt 3 4) ∧
    veq exA exB = .ok false := by
  have h := c5_eq_spec CU TypesIT (by decide) .cInt (by decide)
    ⟨rfl, fun x => HEq.rfl⟩ 3 4
  exact ⟨h.2.1, h.1 exA exB (by decide)⟩

/-- Claim C9: comparing two default-constructed (empty) containers does not
return a value: both discriminants equal the empty sentinel, so `==` and `<`
proceed to visitor dispatch, which falls off the end of the alternative list
and raises the unary dispatch-failure error; in particular `a == a` on an
empty container raises rather than returning `true`. -/
theorem c9_empty_compare {σ : Type} [DecidableEq σ] (U : TypeUniverse σ)
    (Types : List σ) (hlen : Types.length ≤ invalid_value) :
    veq (mkEmpty U Types) (mkEmpty U Types) = .error .unaryDispatchFail ∧
    vlt (mkEmpty U Types) (mkEmpty U Types) = .error .unaryDispatchFail ∧
    veq (mkEmpty U Types) (mkEmpty U Types) ≠ .ok true := by
  have h1 : veq (mkEmpty U Types) (mkEmpty U Types) =
      .error .unaryDispatchFail := by
    unfold veq
    rw [if_neg (not_not_intro rfl)]
    exact visit_inv _ rfl hlen
  have h2 : vlt (mkEmpty U Types) (mkEmpty U Types) =
      .error .unaryDispatchFail := by
    unfold vlt
    rw [if_neg (not_not_intro rfl)]
    exact visit_inv _ rfl hlen
  refine ⟨h1, h2, ?_⟩
  rw [h1]
  intro h
  exact Except.noConfusion h

/-- Claim C9 witness at the concrete example list. -/
theorem c9_witness :
    veq (mkEmpty CU TypesIT) (mkEmpty CU TypesIT) =
      .error .unaryDispatchFail ∧
    vlt (mkEmpty CU TypesIT) (mkEmpty CU TypesIT) =
      .error .unaryDispatchFail :=
  ⟨(c9_empty_compare CU TypesIT (by decide)).1,
   (c9_empty_compare CU TypesIT (by decide)).2.1⟩

/-- Claim C10: a default-constructed container has `valid() = false`,
`is<T>() = false` for every declared alternative `T`, and `get<T>()` raises
the type-mismatch error for every declared alternative `T`. -/
theorem c10_default_state {σ : Type} [DecidableEq σ] (U : TypeUniverse σ)
    (Types : List σ) (hlen : Types.length ≤ invalid_value) (t : σ)
    (ht : t ∈ Types) :
    (mkEmpty U Types).valid = false ∧
    (mkEmpty U Types).is t = false ∧
    (mkEmpty U Types).get t = .error .typeMismatch := by
  have hlt : type_traits_id t Types < Types.length := type_traits_id_lt_length ht
  have hne : invalid_value ≠ type_traits_id t Types := by omega
  refine ⟨?_, ?_, get_mismatch hne⟩
  · simp [Variant.valid, mkEmpty]
  · simp only [Variant.is, mkEmpty]
    exact decide_eq_false hne

/-- Claim C10 witness at the concrete example list. -/
theorem c10_witness : (mkEmpty CU TypesIT).valid = false ∧
    (mkEmpty CU TypesIT).is .cInt = false ∧
    (mkEmpty CU TypesIT).get .cInt = .error .typeMismatch :=
  c10_default_state CU TypesIT (by decide) .cInt (by decide)

/-- Claim C6, counterexample: over `{recursive_wrapper<Integer>, Text}` with
A holding the wrapper alternative X (id 1) and B holding Text (id 0), the
binary visitor is invoked with its first argument typed as the unwrapped
payload `Integer`, not as the alternative X itself: a name-recording visitor
observes `(Integer, Text)` instead of the claimed `(X, Y)`. -/
theorem c6_counterexample :
    binary_visit (variant_of CU TypesW .cWrapInt ⟨5⟩)
      (variant_of CU TypesW .cText "hi") recordNames = .ok (.cInt, .cText) ∧
    CName.cInt ≠ CName.cWrapInt :=
  ⟨rfl, by decide⟩

/-- Claim C6, amended: for live containers A (alternative X, value x) and B
(alternative Y, value y) over the same distinct declared list, a binary
visitor is invoked exactly once with A's value first and B's value second; the
arguments are typed `(X, Y)` when `X = Y` or when `id X < id Y`, while when
`id X > id Y` both arguments are first passed through the unwrapper, so they
are typed `(strip X, strip Y)` — which coincides with `(X, Y)` exactly for
non-box alternatives.  A dispatch-failure error is raised only for a
discriminant matching no declared alternative, e.g. when one side is
empty. -/
theorem c6_binary_dispatch_spec {σ : Type} [DecidableEq σ]
    (U : TypeUniverse σ) (Types : List σ) (hnd : Types.Nodup)
    (hlen : Types.length ≤ invalid_value) (R : Type)
    (f : (s t : σ) → U.interp s → U.interp t → Except VErr R)
    (X : σ) (hX : X ∈ Types) (x : U.interp X)
    (Y : σ) (hY : Y ∈ Types) (y : U.interp Y) :
    (∀ x2 : U.interp X, binary_visit (variant_of U Types X x)
      (variant_of U Types X x2) f = f X X x x2) ∧
    (type_traits_id X Types < type_traits_id Y Types →
      binary_visit (variant_of U Types X x) (variant_of U Types Y y) f =
        f X Y x y) ∧
    (type_traits_id Y Types < type_traits_id X Types →
      binary_visit (variant_of U Types X x) (variant_of U Types Y y) f =
        f (U.strip X) (U.strip Y) (U.unwrap X x) (U.unwrap Y y)) ∧
    binary_visit (variant_of U Types X x) (mkEmpty U Types) f =
      .error .binaryDispatchFail ∧
    binary_visit (mkEmpty U Types) (variant_of U Types Y y) f =
      .error .binaryDispatchFail := by
  refine ⟨?_, ?_, ?_, ?_, ?_⟩
  · intro x2
    exact binary_main_same hnd f rfl rfl rfl rfl Types [] rfl hX
  · intro hlt
    exact binary_main_hetero_lhs hnd f rfl rfl rfl rfl hlt Types [] rfl hX hY
  · intro hlt
    exact binary_main_hetero_rhs hnd f rfl rfl rfl rfl hlt Types [] rfl hX hY
  · exact binary_main_live_inv hnd f rfl rfl rfl hlen Types [] rfl hX
  · exact binary_main_inv_live hnd f rfl rfl rfl hlen Types [] rfl hY

/-- Claim C6 witness on the plain example list: same-alternative dispatch,
heterogeneous dispatch (A's id greater, so through the rhs branch), and the
dispatch-failure on an empty right side. -/
theorem c6_witness :
    binary_visit exA (variant_of CU TypesIT .cInt 9) recordNames =
      .ok (.cInt, .cInt) ∧
    binary_visit exA exB recordNames = .ok (.cInt, .cText) ∧
    binary_visit exA (mkEmpty CU TypesIT) recordNames =
      .error .binaryDispatchFail := by
  have h := c6_binary_dispatch_spec CU TypesIT (by decide) (by decide)
    (CName × CName) recordNames .cInt (by decide) 5 .cText (by decide) "hi"
  exact ⟨h.1 9, h.2.2.1 (by decide), h.2.2.2.1⟩

/-- Claim C7, counterexample: in the same-alternative branch of binary
visitation over `{recursive_wrapper<Integer>, Text}`, the visitor receives the
indirection box itself, not the payload: a name-recording visitor observes the
wrapper name on both arguments, although the wrapper's payload name is
`Integer`. -/
theorem c7_counterexample :
    binary_visit exW exW recordNames = .ok (.cWrapInt, .cWrapInt) ∧
    CU.strip .cWrapInt = .cInt ∧ CName.cWrapInt ≠ CName.cInt :=
  ⟨rfl, rfl, by decide⟩

/-- Claim C7, amended: unary visitation always passes the active value through
the unwrapper, so formatting and the equality/ordering comparators receive the
unwrapped payload; in binary visitation only the rhs second-pass branch
(taken when the left discriminant is the greater) unwraps — the
same-alternative branch and the lhs second-pass branch pass the box itself to
the visitor. -/
theorem c7_unwrap_spec {σ : Type} [DecidableEq σ] (U : TypeUniverse σ)
    (Types : List σ) (hnd : Types.Nodup) (R : Type)
    (f1 : (t : σ) → U.interp t → Except VErr R)
    (f2 : (s t : σ) → U.interp s → U.interp t → Except VErr R)
    (sh : (t : σ) → U.interp t → String)
    (t : σ) (ht : t ∈ Types) (y : U.interp t) :
    visit (variant_of U Types t y) f1 = f1 (U.strip t) (U.unwrap t y) ∧
    vformat sh (variant_of U Types t y) =
      .ok (sh (U.strip t) (U.unwrap t y)) ∧
    (∀ a : Variant U Types, a.type_index = type_traits_id t Types →
      veq a (variant_of U Types t y) = (a.get (U.strip t)).bind
        (fun l => .ok (U.beq (U.strip t) l (U.unwrap t y)))) ∧
    (∀ a : Variant U Types, a.type_index = type_traits_id t Types →
      vlt a (variant_of U Types t y) = (a.get (U.strip t)).bind
        (fun l => .ok (U.blt (U.strip t) l (U.unwrap t y)))) ∧
    (∀ x2 : U.interp t, binary_visit (variant_of U Types t x2)
      (variant_of U Types t y) f2 = f2 t t x2 y) ∧
    (∀ s : σ, s ∈ Types → ∀ x2 : U.interp s,
      type_traits_id t Types < type_traits_id s Types →
      binary_visit (variant_of U Types s x2) (variant_of U Types t y) f2 =
        f2 (U.strip s) (U.strip t) (U.unwrap s x2) (U.unwrap t y)) ∧
    (∀ s : σ, s ∈ Types → ∀ x2 : U.interp s,
      type_traits_id s Types < type_traits_id t Types →
      binary_visit (variant_of U Types s x2) (variant_of U Types t y) f2 =
        f2 s t x2 y) := by
  refine ⟨?_, ?_, ?_, ?_, ?_, ?_, ?_⟩
  · exact visit_live hnd f1 rfl rfl ht
  · exact visit_live hnd _ rfl rfl ht
  · intro a ha
    exact veq_same_index hnd rfl rfl ht ha
  · intro a ha
    exact vlt_same_index hnd rfl rfl ht ha
  · intro x2
    exact binary_main_same hnd f2 rfl rfl rfl rfl Types [] rfl ht
  · intro s hs x2 hlt
    exact binary_main_hetero_rhs hnd f2 rfl rfl rfl rfl hlt Types [] rfl hs ht
  · intro s hs x2 hlt
    exact binary_main_hetero_lhs hnd f2 rfl rfl rfl rfl hlt Types [] rfl hs ht

/-- Claim C7 witness on the wrapper list: unary visitation reports the
payload name, while the same-alternative binary branch reports the box name
on both sides. -/
theorem c7_witness :
    visit exW2 recordName1 = .ok .cInt ∧
    binary_visit exW2 exW2 recordNames = .ok (.cWrapInt, .cWrapInt) := by
  have h1 := c7_unwrap_spec CU TypesW (by decide) CName recordName1
    (fun s _ _ _ => .ok s) (fun _ _ => "") .cWrapInt (by decide)
    (⟨9⟩ : recursive_wrapper Int)
  have h2 := c7_unwrap_spec CU TypesW (by decide) (CName × CName)
    (fun t _ => .ok (t, t)) recordNames (fun _ _ => "") .cWrapInt (by decide)
    (⟨9⟩ : recursive_wrapper Int)
  exact ⟨h1.1, h2.2.2.2.2.1 ⟨9⟩⟩

/-- Claim C8: assignment is copy-construct-into-temporary then swap: when the
source's payload copy constructor succeeds (returning an equal value, as a
copy constructor does), the target afterwards equals the source's prior
value — including self-assignment, with `other := self`; the source, being
only read, is unchanged (the operation is a pure function of it).  If
constructing the temporary fails, the exception propagates and the target is
returned unmodified. -/
theorem c8_assign_spec {σ : Type} [DecidableEq σ] (U : TypeUniverse σ)
    (Types : List σ) (hnd : Types.Nodup)
    (hlen : Types.length ≤ invalid_value) (self other : Variant U Types)
    (hwf : WF other)
    (hfa : ∀ t x, other.data = some ⟨t, x⟩ → U.copy t x = .ok x) :
    assign self other = (other, .ok ()) ∧
    (∀ (self2 other2 : Variant U Types) (e : VErr),
      copy_ctor other2 = .error e →
        assign self2 other2 = (self2, .error e)) := by
  constructor
  · unfold assign
    rw [copy_ctor_wf hnd hlen hwf hfa]
    rfl
  · intro self2 other2 e h
    unfold assign
    rw [h]

/-- Claim C8 witness: assigning from `Integer(5)` (clean copy) replaces the
target with the source's value; assigning from `Integer(13)` (whose copy
constructor throws) propagates the error and leaves the target unchanged. -/
theorem c8_witness :
    assign selfF otherF = (otherF, .ok ()) ∧
    assign selfF otherF13 = (selfF, .error .payloadCopyThrow) := by
  have hfa : ∀ (t : CName) (x : CUF.interp t),
      otherF.data = some ⟨t, x⟩ → CUF.copy t x = .ok x := by
    intro t x hd
    have hd2 : (some ⟨CName.cInt, (5 : Int)⟩ : Option (Σ s : CName, CUF.interp s)) =
        some ⟨t, x⟩ := hd
    injection hd2 with hd3
    injection hd3 with h1 h2
    subst h1
    have h2b := eq_of_heq h2
    subst h2b
    rfl
  have h := c8_assign_spec CUF TypesIT (by decide) (by decide) selfF otherF
    (Or.inr ⟨.cInt, 5, by decide, rfl, rfl⟩) hfa
  exact ⟨h.1, h.2 selfF otherF13 .payloadCopyThrow rfl⟩
